import Mathlib

/-!
Verification of the smolFlow node-based workflow framework (smolflow.js).

The definitions below are a shallow embedding of the framework's core:
the retry loop of `Node._exec`, `BatchNode._exec`, the object store used
to model JavaScript object references (nodes, their `params` and
`successors` maps), `shallowCopy`, `Flow.getNextNode`, `Flow._orchestrate`,
`BatchFlow._run`, the warning channel, and the successor-wiring API
(`next`, `connect`, `withTransition`).
-/

deriving instance DecidableEq for Except

namespace SmolFlow

/-! ### Events and outcomes of the synchronous retry loop (`Node._exec`) -/

/-- Observable events during `Node._exec`: calls to `exec` (with the attempt
index `curRetry` and the attempt's outcome), calls to `execFallback` (with
`curRetry` and the caught error), emitted warnings, and `setTimeout`
scheduling of a deferred no-op. -/
inductive RunEv (E A : Type) where
  | execCall (i : Nat) (r : Except E A)
  | fbCall (i : Nat) (e : E)
  | warnEv (msg : String)
  | schedTimeout (ms : Int)
  deriving DecidableEq, Repr

/-- Outcome of a JavaScript call: normal return, thrown error, or the
implicit `undefined` when a function body falls through. -/
inductive JsOut (E A : Type) where
  | ok (a : A)
  | thrown (e : E)
  | undef
  deriving DecidableEq, Repr

/-- The warning text emitted by `Node._exec` when `wait > 0` on the
synchronous path. -/
def syncWaitMsg : String :=
  "Synchronous wait in browser JS is not recommended. Consider using AsyncNode instead."

/-- Outcome of invoking `execFallback`: a normal return becomes the loop's
return value, a throw propagates. -/
def fbOut {E A : Type} : Except E A → JsOut E A
  | .ok a => .ok a
  | .error e => .thrown e

/-- `Node._exec`'s retry loop, from attempt index `i` with `rem` loop
iterations left (`rem = maxRetries - i`).  Each attempt calls
`exec` (modelled by `execB i`, the behaviour of `exec` on attempt `i`);
on a throw at the last attempt (`curRetry === maxRetries - 1`) it calls
`execFallback` (modelled by `fb`); on a throw at a non-final attempt with
`wait > 0` it emits a warning and schedules a `setTimeout` no-op for
`wait * 1000` milliseconds, then continues with the next attempt. -/
def nodeExecLoop {E A : Type} (execB : Nat → Except E A) (fb : E → Except E A)
    (wait : Int) : Nat → Nat → JsOut E A × List (RunEv E A)
  | _, 0 => (.undef, [])
  | i, rem + 1 =>
    match execB i with
    | .ok a => (.ok a, [.execCall i (.ok a)])
    | .error e =>
      if rem = 0 then
        (fbOut (fb e), [.execCall i (.error e), .fbCall i e])
      else
        let waitEvs : List (RunEv E A) :=
          if 0 < wait then [.warnEv syncWaitMsg, .schedTimeout (wait * 1000)] else []
        let t := nodeExecLoop execB fb wait (i + 1) rem
        (t.1, .execCall i (.error e) :: (waitEvs ++ t.2))

/-- `Node._exec(prepRes)`: the retry loop started at `curRetry = 0` running
while `curRetry < maxRetries`. -/
def nodeExec {E A : Type} (execB : Nat → Except E A) (fb : E → Except E A)
    (wait : Int) (maxRetries : Nat) : JsOut E A × List (RunEv E A) :=
  nodeExecLoop execB fb wait 0 maxRetries

/-- The default `Node.execFallback(prepRes, exc)`: re-throws the error. -/
def defaultFallback {E A : Type} : E → Except E A := fun e => .error e

/-- Recognises `exec`-call events. -/
def isExecEv {E A : Type} : RunEv E A → Bool
  | .execCall _ _ => true
  | _ => false

/-- Recognises `execFallback`-call events. -/
def isFbEv {E A : Type} : RunEv E A → Bool
  | .fbCall _ _ => true
  | _ => false

/-- Recognises the events that constitute the exec/fallback invocation
sequence (as opposed to warnings and timer scheduling). -/
def isCoreEv {E A : Type} (ev : RunEv E A) : Bool := isExecEv ev || isFbEv ev

/-- Number of `exec` invocations recorded in a trace. -/
def execCalls {E A : Type} (evs : List (RunEv E A)) : Nat :=
  (evs.filter isExecEv).length

/-- The `execFallback` invocations recorded in a trace. -/
def fbEvents {E A : Type} (evs : List (RunEv E A)) : List (RunEv E A) :=
  evs.filter isFbEv

/-- The exec/fallback invocation sequence of a trace, warnings and timer
events removed. -/
def coreEvents {E A : Type} (evs : List (RunEv E A)) : List (RunEv E A) :=
  evs.filter isCoreEv

/-! ### `BatchNode._exec` -/

/-- The possible shapes of the `items` argument of `BatchNode._exec`, as the
code distinguishes them: a falsy value (`null`, `undefined`, `0`, `""`,
`false`), an array, or a truthy non-array value (carrying its `typeof`
name for the warning text). -/
inductive BInput (ι : Type) where
  | falsyIn
  | arr (xs : List ι)
  | scalar (x : ι) (tyName : String)
  deriving Repr

/-- Warning text of `BatchNode._exec` on truthy non-array input. -/
def batchWarnMsg (tyName : String) : String :=
  "BatchNode expected an array but received " ++ tyName

/-- Collecting one element's `Node._exec` outcome into an array slot:
`undefined` is stored as an absent value, a throw aborts the whole call. -/
def jsOutToElem {E A : Type} : JsOut E A → Except E (Option A)
  | .ok a => .ok (some a)
  | .undef => .ok none
  | .thrown e => .error e

/-- `items.map(item => super._exec(item))`: each element runs through the
inherited `Node._exec` (fresh loop, starting at attempt 0); a throw from
an element propagates, aborting the remaining elements. -/
def batchElems {ι E A : Type} (execB : ι → Nat → Except E A) (fb : ι → E → Except E A)
    (wait : Int) (maxRetries : Nat) :
    List ι → Except E (List (Option A)) × List (RunEv E A)
  | [] => (.ok [], [])
  | x :: xs =>
    let t := nodeExec (execB x) (fb x) wait maxRetries
    match jsOutToElem t.1 with
    | .error e => (.error e, t.2)
    | .ok v =>
      let r := batchElems execB fb wait maxRetries xs
      (r.1.map (fun l => v :: l), t.2 ++ r.2)

/-- `BatchNode._exec(items)`: falsy input returns `[]` immediately; a truthy
non-array input emits a warning and is treated as a single-element batch;
an array is mapped element-wise through the inherited retrying `_exec`.
Returns (result, retry-loop events, warnings). -/
def batchNodeExec {ι E A : Type} (execB : ι → Nat → Except E A)
    (fb : ι → E → Except E A) (wait : Int) (maxRetries : Nat) :
    BInput ι → Except E (List (Option A)) × List (RunEv E A) × List String
  | .falsyIn => (.ok [], [], [])
  | .arr xs =>
    let r := batchElems execB fb wait maxRetries xs
    (r.1, r.2, [])
  | .scalar x tyName =>
    let t := nodeExec (execB x) (fb x) wait maxRetries
    ((jsOutToElem t.1).map (fun v => [v]), t.2, [batchWarnMsg tyName])

/-! ### JavaScript string-keyed maps (plain objects used as dictionaries) -/

/-- A JavaScript object used as a string-keyed map, as an insertion-ordered
association list with unique keys. -/
abbrev PMap (ν : Type) := List (String × ν)

/-- Property read `m[k]`: the value at key `k`, or absent. -/
def lookupEntry {ν : Type} : PMap ν → String → Option ν
  | [], _ => none
  | (k', v) :: rest, k => if k' = k then some v else lookupEntry rest k

/-- Property write `m[k] = v`: updates an existing key in place (preserving
key order) or appends a new key. -/
def setEntry {ν : Type} : PMap ν → String → ν → PMap ν
  | [], k, v => [(k, v)]
  | (k', v') :: rest, k, v =>
    if k' = k then (k, v) :: rest else (k', v') :: setEntry rest k v

/-- Object spread merge `{...base, ...upd}`: `base`'s entries assigned
first, then `upd`'s entries assigned over them (so `upd`'s keys win). -/
def jsMerge {ν : Type} (base upd : PMap ν) : PMap ν :=
  upd.foldl (fun acc kv => setEntry acc kv.1 kv.2) base

/-! ### Object store: JavaScript references for nodes and their two maps

A node object holds *references* to its `params` map and its `successors`
map.  The store keeps three heaps (node objects, params maps, successors
maps) addressed by numeric references, so that aliasing created by
`shallowCopy` (`Object.assign` copies the property *values*, i.e. the map
references) is represented faithfully. -/

/-- The own enumerable data of a node object: the reference to its `params`
map, the reference to its `successors` map, and its behaviour (standing
for the node's class/prototype methods, which `Object.create(getPrototypeOf(obj))`
gives the shallow copy as well). -/
structure NodeRec (β : Type) where
  paramsRef : Nat
  succRef : Nat
  behav : β
  deriving DecidableEq, Repr

/-- The object store: heaps for node objects, params maps and successors
maps, with allocation counters. -/
structure Store (ν β : Type) where
  nodes : Nat → NodeRec β
  pmaps : Nat → PMap ν
  smaps : Nat → PMap Nat
  nextNode : Nat
  nextP : Nat
  nextS : Nat

/-- Pointwise function update. -/
def updFn {α : Type} (f : Nat → α) (i : Nat) (a : α) : Nat → α :=
  fun j => if j = i then a else f j

/-- Allocate a fresh node object. -/
def allocNode {ν β : Type} (s : Store ν β) (r : NodeRec β) : Nat × Store ν β :=
  (s.nextNode,
   { s with nodes := updFn s.nodes s.nextNode r, nextNode := s.nextNode + 1 })

/-- Allocate a fresh params map. -/
def allocPmap {ν β : Type} (s : Store ν β) (m : PMap ν) : Nat × Store ν β :=
  (s.nextP, { s with pmaps := updFn s.pmaps s.nextP m, nextP := s.nextP + 1 })

/-- Allocate a fresh successors map. -/
def allocSmap {ν β : Type} (s : Store ν β) (m : PMap Nat) : Nat × Store ν β :=
  (s.nextS, { s with smaps := updFn s.smaps s.nextS m, nextS := s.nextS + 1 })

/-- `new BaseNode()`: `this.params = {}` and `this.successors = {}` are
fresh empty maps. -/
def newBaseNode {ν β : Type} (s : Store ν β) (bv : β) : Nat × Store ν β :=
  let pr := allocPmap s []
  let sr := allocSmap pr.2 []
  allocNode sr.2 ⟨pr.1, sr.1, bv⟩

/-- `shallowCopy(node)` for a non-array object:
`Object.assign(Object.create(Object.getPrototypeOf(obj)), obj)` — a fresh
object whose own properties hold the *same values* as the original's, so
the `params` and `successors` map references are shared, not duplicated. -/
def shallowCopyNode {ν β : Type} (s : Store ν β) (nid : Nat) : Nat × Store ν β :=
  allocNode s (s.nodes nid)

/-- `node.setParams(p)`: replaces the node's `params` reference wholesale
(`this.params = params`); the previously referenced map is not written. -/
def setParamsRef {ν β : Type} (s : Store ν β) (nid : Nat) (pref : Nat) : Store ν β :=
  { s with nodes := updFn s.nodes nid { s.nodes nid with paramsRef := pref } }

/-- In-place mutation `node.successors[k] = tgt` of one entry of the
successors map a node references. -/
def setSuccEntry {ν β : Type} (s : Store ν β) (nid : Nat) (k : String) (tgt : Nat) :
    Store ν β :=
  let r := (s.nodes nid).succRef
  { s with smaps := updFn s.smaps r (setEntry (s.smaps r) k tgt) }

/-- In-place mutation `node.params[k] = v` of one entry of the params map a
node references. -/
def setParamEntry {ν β : Type} (s : Store ν β) (nid : Nat) (k : String) (v : ν) :
    Store ν β :=
  let r := (s.nodes nid).paramsRef
  { s with pmaps := updFn s.pmaps r (setEntry (s.pmaps r) k v) }

/-- The successors map a node currently references. -/
def succOf {ν β : Type} (s : Store ν β) (nid : Nat) : PMap Nat :=
  s.smaps ((s.nodes nid).succRef)

/-- The params map a node currently references. -/
def paramsOf {ν β : Type} (s : Store ν β) (nid : Nat) : PMap ν :=
  s.pmaps ((s.nodes nid).paramsRef)

/-! ### Successor wiring: `next`, `connect`, `withTransition` -/

/-- Warning text of `BaseNode.next` when an existing successor is
overwritten. -/
def overwriteMsg (action : String) : String :=
  "Overwriting successor for action \x27" ++ action ++ "\x27"

/-- `a.next(b, action)`: warns if the label is already mapped, assigns
`this.successors[action] = b`, and returns `b` (the successor, for
chaining).  Returns (returned node, store, warnings). -/
def nextOp {ν β : Type} (s : Store ν β) (a b : Nat) (action : String) :
    Nat × Store ν β × List String :=
  let ws := if (lookupEntry (succOf s a) action).isSome then [overwriteMsg action] else []
  (b, setSuccEntry s a action b, ws)

/-- `a.connect(b)`: sugar for `a.next(b)` with the `"default"` action. -/
def connectOp {ν β : Type} (s : Store ν β) (a b : Nat) : Nat × Store ν β × List String :=
  nextOp s a b "default"

/-- The helper object produced by `withTransition`: a (source node, action)
pair. -/
structure CondTransition where
  src : Nat
  action : String
  deriving DecidableEq, Repr

/-- `a.withTransition(action)`: packages the source node and the action. -/
def withTransitionOp (a : Nat) (action : String) : CondTransition :=
  ⟨a, action⟩

/-- `ConditionalTransition.connect(tgt)`: performs `src.next(tgt, action)`. -/
def ctConnect {ν β : Type} (s : Store ν β) (t : CondTransition) (b : Nat) :
    Nat × Store ν β × List String :=
  nextOp s t.src b t.action

/-! ### Successor lookup: `Flow.getNextNode` -/

/-- `JSON.stringify(Object.keys(successors))`. -/
def jsonKeyList (keys : List String) : String :=
  "[" ++ String.intercalate "," (keys.map (fun k => "\"" ++ k ++ "\"")) ++ "]"

/-- `action || "default"`: an absent (`null`/`undefined`) or empty-string
action label coerces to `"default"`. -/
def coerceAction : Option String → String
  | none => "default"
  | some a => if a = "" then "default" else a

/-- The warning text of `Flow.getNextNode` for an unmatched action label. -/
def flowEndsMsg (nextAction : String) (keys : List String) : String :=
  "Flow ends: \x27" ++ nextAction ++ "\x27 not found in " ++ jsonKeyList keys

/-- `Flow.getNextNode(curr, action)` on the successors map `succ`: coerces
the label, looks it up, and — when it is absent while the map is
non-empty — emits one warning naming the label and the available keys.
Returns (successor or absent, warnings). -/
def getNextNodeFn (succ : PMap Nat) (action : Option String) :
    Option Nat × List String :=
  let nextAction := coerceAction action
  let next := lookupEntry succ nextAction
  if next.isNone && !succ.isEmpty then
    (next, [flowEndsMsg nextAction (succ.map Prod.fst)])
  else
    (next, [])

/-- The property names every plain object literal inherits from
`Object.prototype`; reading any of them on `{}` yields a truthy value (a
built-in function, or the prototype object itself for `__proto__`). -/
def objectProtoKeys : List String :=
  ["constructor", "hasOwnProperty", "isPrototypeOf", "propertyIsEnumerable",
   "toLocaleString", "toString", "valueOf", "__proto__",
   "__defineGetter__", "__defineSetter__", "__lookupGetter__", "__lookupSetter__"]

/-- The possible results of the property read `successors[label]` on a
successors map backed by a plain object literal: an own entry (a
registered successor node), a truthy non-node value inherited from
`Object.prototype`, or `undefined`. -/
inductive SuccRead where
  | node (nid : Nat)
  | inherited
  | absent
  deriving DecidableEq, Repr

/-- JavaScript property read `succ[k]` on a plain object literal with the
prototype chain: an own key wins; otherwise an `Object.prototype` member
name reads a truthy inherited non-node value; otherwise the read is
`undefined`. -/
def jsPropRead (succ : PMap Nat) (k : String) : SuccRead :=
  match lookupEntry succ k with
  | some nid => .node nid
  | none => if k ∈ objectProtoKeys then .inherited else .absent

/-- `Flow.getNextNode(curr, action)` with the prototype chain of the plain
successors object modelled: `next = successors[action || "default"]`; the
warning fires only when the read is falsy (`undefined`, never for a
prototype-chain hit, which is truthy) and the map has own keys; the value
read — a node, or a truthy inherited non-node — is returned unchanged. -/
def getNextNodeJs (succ : PMap Nat) (action : Option String) :
    SuccRead × List String :=
  let nextAction := coerceAction action
  let next := jsPropRead succ nextAction
  if next == SuccRead.absent && !succ.isEmpty then
    (next, [flowEndsMsg nextAction (succ.map Prod.fst)])
  else
    (next, [])

/-! ### Flow orchestration: `Flow._orchestrate`

A node's full lifecycle run (`_run`: prep, `_exec`, post) is modelled by an
interpretation `interp` of the node's behaviour: given the shared context
and the node's current params map, it yields the updated shared context and
the action label returned by `post` (`none` standing for a `null`/
`undefined`/non-string result). -/

/-- The outcome of an orchestration: final store, final shared context, the
last action label, and the warnings emitted by the loop. -/
structure OrchResult (ν β σ : Type) where
  store : Store ν β
  shared : σ
  lastAction : Option String
  warns : List String

/-- The `while (curr)` loop of `Flow._orchestrate`, with `fuel` bounding the
number of iterations (graphs may be cyclic): each step shallow-copies the
current node, replaces the copy's params reference by `pref` (the map `p`
allocated once per run), runs the copy's lifecycle, and moves on via
`getNextNode` on the *original* node's successors map. -/
def orchLoop {ν β σ : Type} (interp : β → σ → PMap ν → σ × Option String)
    (pref : Nat) :
    Nat → Store ν β → σ → Option Nat → Option String → OrchResult ν β σ
  | 0, s, sh, _, la => ⟨s, sh, la, []⟩
  | _ + 1, s, sh, none, la => ⟨s, sh, la, []⟩
  | fuel + 1, s, sh, some c, _ =>
    let cp := shallowCopyNode s c
    let s2 := setParamsRef cp.2 cp.1 pref
    let step := interp (s2.nodes cp.1).behav sh (paramsOf s2 cp.1)
    let nx := getNextNodeFn (succOf s2 c) step.2
    let r := orchLoop interp pref fuel s2 step.1 nx.1 step.2
    ⟨r.store, r.shared, r.lastAction, nx.2 ++ r.warns⟩

/-- `Flow._orchestrate(shared, params)`: warns and returns `null` without a
start node; otherwise sets `p := params || {...this.params}` (allocating a
fresh shallow copy of the flow's own params map when no override is given)
and drives the loop from the start node. -/
def orchestrate {ν β σ : Type} (interp : β → σ → PMap ν → σ × Option String)
    (s : Store ν β) (sh : σ) (startNode : Option Nat) (params : Option Nat)
    (flowParamsRef : Nat) (fuel : Nat) : OrchResult ν β σ :=
  match startNode with
  | none => ⟨s, sh, none, ["Flow has no start node"]⟩
  | some st =>
    match params with
    | some pref => orchLoop interp pref fuel s sh (some st) none
    | none =>
      let pr := allocPmap s (s.pmaps flowParamsRef)
      orchLoop interp pr.1 fuel pr.2 sh (some st) none

/-! ### `BatchFlow._run` -/

/-- The possible shapes of `this.prep(shared)` as `BatchFlow._run`
distinguishes them: falsy (replaced by `[]` via `|| []`), an array of
parameter mappings, or a truthy non-array value (with its `typeof` name). -/
inductive BPrep (ν : Type) where
  | falsyP
  | arrP (ps : List (PMap ν))
  | scalarP (tyName : String)
  deriving Repr

/-- What `BatchFlow._run` observably does: the final store and shared
context, the contents of the params map passed to each `_orchestrate`
call in order, the two arguments handed to `post` (prep result and the
execution result, which the code hard-wires to `null`), and warnings. -/
structure BatchRunResult (ν β σ : Type) where
  store : Store ν β
  shared : σ
  orchArgs : List (PMap ν)
  postPrepArg : BPrep ν
  postExecArg : Option Unit
  warns : List String

/-- The `for (const bp of pr)` loop of `BatchFlow._run`: for each parameter
mapping, allocate the fresh object `{...this.params, ...bp}` and call
`_orchestrate(shared, it)`, discarding the returned action label.
Returns (store, shared, orchestration params in order, warnings). -/
def batchFlowLoop {ν β σ : Type} (interp : β → σ → PMap ν → σ × Option String)
    (fuel : Nat) (flowParamsRef : Nat) (startNode : Option Nat) :
    List (PMap ν) → Store ν β → σ →
      Store ν β × σ × List (PMap ν) × List String
  | [], s, sh => (s, sh, [], [])
  | bp :: rest, s, sh =>
    let merged := jsMerge (s.pmaps flowParamsRef) bp
    let pr := allocPmap s merged
    let r := orchestrate interp pr.2 sh startNode (some pr.1) flowParamsRef fuel
    let res := batchFlowLoop interp fuel flowParamsRef startNode rest r.store r.shared
    (res.1, res.2.1, merged :: res.2.2.1, r.warns ++ res.2.2.2)

/-- `BatchFlow._run(shared)`: `pr = this.prep(shared) || []`; a truthy
non-array `pr` warns and skips straight to `post(shared, pr, null)`;
otherwise each parameter mapping drives one `_orchestrate` call with
`{...this.params, ...bp}`, and finally `post(shared, pr, null)` is
called — the execution result handed to `post` is the literal `null`. -/
def batchFlowRun {ν β σ : Type} (interp : β → σ → PMap ν → σ × Option String)
    (prepRes : BPrep ν) (fuel : Nat) (flowParamsRef : Nat)
    (startNode : Option Nat) (s : Store ν β) (sh : σ) : BatchRunResult ν β σ :=
  match prepRes with
  | .scalarP tyName =>
    ⟨s, sh, [], .scalarP tyName, none,
     ["BatchFlow expected an array from prep() but received " ++ tyName]⟩
  | .falsyP => ⟨s, sh, [], .arrP [], none, []⟩
  | .arrP ps =>
    let r := batchFlowLoop interp fuel flowParamsRef startNode ps s sh
    ⟨r.1, r.2.1, r.2.2.1, .arrP ps, none, r.2.2.2⟩

/-! ### Warning channel -/

/-- A registered warning handler: the initially-registered `console.warn`
(which writes to the standard error stream) or an application handler. -/
inductive WHandler where
  | consoleWarn
  | custom (i : Nat)
  deriving DecidableEq, Repr

/-- The initial handler list: `handlers: [console.warn]`. -/
def initialHandlers : List WHandler := [WHandler.consoleWarn]

/-- `warnings.warn(message)`: invokes every registered handler on the
message, in order; the result lists the (handler, message) calls made. -/
def warnDispatch (handlers : List WHandler) (msg : String) :
    List (WHandler × String) :=
  handlers.map (fun h => (h, msg))

/-- `warnings.addHandler(handler)`: appends a handler. -/
def addHandler (handlers : List WHandler) (h : WHandler) : List WHandler :=
  handlers ++ [h]

/-- `warnings.clearHandlers()` (`clearWarningHandlers`): `this.handlers = []`
removes every handler, the initially-registered `console.warn` included. -/
def clearHandlers (_handlers : List WHandler) : List WHandler := []

/-- Recognises calls to `console.warn`. -/
def isConsoleWarn : WHandler → Bool
  | .consoleWarn => true
  | _ => false

/-- The messages a list of handler calls writes to the standard error
stream: exactly those dispatched to `console.warn`. -/
def stderrWrites (calls : List (WHandler × String)) : List String :=
  (calls.filter (fun c => isConsoleWarn c.1)).map Prod.snd

/-! ### Synchronous entry of the asynchronous family: `AsyncNode._run` -/

/-- The message of the error `AsyncNode._run` throws. -/
def asyncRunErrMsg : String := "AsyncNode cannot be run synchronously. Use runAsync()."

/-- Lifecycle phases, for recording which of them a run invokes. -/
inductive PhaseEv where
  | prepPhase
  | execPhase
  | postPhase
  deriving DecidableEq, Repr

/-- `BaseNode._run(shared)`: `p = prep(shared); e = _exec(p);
return post(shared, p, e)` — all three phases invoked in order. -/
def baseNodeRunSync {σ α ε : Type} (prepF : σ → α) (execF : α → ε)
    (postF : σ → α → ε → Option String) (sh : σ) :
    Except String (Option String) × List PhaseEv :=
  let p := prepF sh
  let e := execF p
  (.ok (postF sh p e), [.prepPhase, .execPhase, .postPhase])

/-- The synchronous `_run` entry point as dispatched on the node's family:
the synchronous family runs the three phases; `AsyncNode` overrides `_run`
to throw immediately, before any phase. -/
def nodeRunSyncEntry {σ α ε : Type} (isAsync : Bool) (prepF : σ → α)
    (execF : α → ε) (postF : σ → α → ε → Option String) (sh : σ) :
    Except String (Option String) × List PhaseEv :=
  if isAsync then (.error asyncRunErrMsg, [])
  else baseNodeRunSync prepF execF postF sh

/-! ### Concrete fixtures used by scenario conjuncts, counterexamples and
witnesses -/

/-- Interpretation of node behaviours for concrete runs: a node tagged `b`
appends `b` to the shared list (so the shared context records the visit
order); the node tagged 0 returns the empty-string action label, every
other node returns `null`. -/
def scenInterp : Nat → List Nat → PMap Nat → List Nat × Option String :=
  fun b sh _ => (sh ++ [b], if b = 0 then some "" else none)

/-- A three-node store: node 0 (A) with successors
`{"go": 1, "default": 2}`; nodes 1 (B) and 2 (C) with no successors;
all params maps empty. -/
def scenStore : Store Nat Nat where
  nodes := fun n => if n = 1 then ⟨1, 1, 1⟩ else if n = 2 then ⟨2, 2, 2⟩ else ⟨0, 0, 0⟩
  pmaps := fun _ => []
  smaps := fun r => if r = 0 then [("go", 1), ("default", 2)] else []
  nextNode := 3
  nextP := 3
  nextS := 3

/-- A one-node store for exercising `shallowCopy` aliasing: node 0 with
`params = {a: 1}` and `successors = {go: 7}`. -/
def cexStore : Store Nat Unit where
  nodes := fun _ => ⟨0, 0, ()⟩
  pmaps := fun _ => [("a", 1)]
  smaps := fun _ => [("go", 7)]
  nextNode := 1
  nextP := 1
  nextS := 1

/-- A store with nothing allocated. -/
def emptyStore : Store Nat Unit where
  nodes := fun _ => ⟨0, 0, ()⟩
  pmaps := fun _ => []
  smaps := fun _ => []
  nextNode := 0
  nextP := 0
  nextS := 0

/-- `const a = new BaseNode()`. -/
def chainA : Nat × Store Nat Unit := newBaseNode emptyStore ()

/-- `const b = new BaseNode()`. -/
def chainB : Nat × Store Nat Unit := newBaseNode chainA.2 ()

/-- `const c = new BaseNode()`. -/
def chainC : Nat × Store Nat Unit := newBaseNode chainB.2 ()

/-- `a.connect(b)`. -/
def chainAB : Nat × Store Nat Unit × List String := connectOp chainC.2 chainA.1 chainB.1

/-- `a.connect(b).connect(c)`: the second `connect` is invoked on the value
returned by the first. -/
def chainABC : Nat × Store Nat Unit × List String :=
  connectOp chainAB.2.1 chainAB.1 chainC.1

/-! ## Theorems -/

/-- Unfolding: a loop iteration whose `exec` call returns normally. -/
theorem nodeExecLoop_ok {E A : Type} (execB : Nat → Except E A)
    (fb : E → Except E A) (w : Int) (i rem : Nat) (a : A)
    (h : execB i = Except.ok a) :
    nodeExecLoop execB fb w i (rem + 1) = (.ok a, [.execCall i (.ok a)]) := by
  simp [nodeExecLoop, h]

/-- Unfolding: the last loop iteration (`curRetry === maxRetries - 1`) whose
`exec` call throws invokes `execFallback`. -/
theorem nodeExecLoop_err_last {E A : Type} (execB : Nat → Except E A)
    (fb : E → Except E A) (w : Int) (i : Nat) (e : E)
    (h : execB i = Except.error e) :
    nodeExecLoop execB fb w i 1
      = (fbOut (fb e), [.execCall i (.error e), .fbCall i e]) := by
  simp [nodeExecLoop, h]

/-- Unfolding: a non-final loop iteration whose `exec` call throws warns and
schedules the no-op timeout when `wait > 0`, then continues with the next
attempt. -/
theorem nodeExecLoop_err_step {E A : Type} (execB : Nat → Except E A)
    (fb : E → Except E A) (w : Int) (i rem : Nat) (e : E)
    (h : execB i = Except.error e) (hrem : rem ≠ 0) :
    nodeExecLoop execB fb w i (rem + 1)
      = ((nodeExecLoop execB fb w (i + 1) rem).1,
         .execCall i (.error e) ::
           ((if 0 < w then [.warnEv syncWaitMsg, .schedTimeout (w * 1000)] else [])
             ++ (nodeExecLoop execB fb w (i + 1) rem).2)) := by
  simp [nodeExecLoop, h, hrem]

/-- The `execCalls` / `fbEvents` / `coreEvents` counters ignore the warning
and timer events of a wait. -/
theorem filter_waitEvs {E A : Type} (w : Int) :
    (List.filter isExecEv
      (if 0 < w then
        [RunEv.warnEv (E := E) (A := A) syncWaitMsg, RunEv.schedTimeout (w * 1000)]
       else []) = [])
    ∧ (List.filter isFbEv
      (if 0 < w then
        [RunEv.warnEv (E := E) (A := A) syncWaitMsg, RunEv.schedTimeout (w * 1000)]
       else []) = [])
    ∧ (List.filter isCoreEv
      (if 0 < w then
        [RunEv.warnEv (E := E) (A := A) syncWaitMsg, RunEv.schedTimeout (w * 1000)]
       else []) = []) := by
  by_cases hw : (0 : Int) < w <;>
    simp [hw, isExecEv, isFbEv, isCoreEv, List.filter]

/-- If `exec` throws on every attempt the loop reaches, the retry loop from
attempt `i` with `rem + 1` iterations left calls `exec` once per
iteration, then calls `execFallback` exactly once, at attempt index
`i + rem`, with the last error; the loop's value is the fallback's. -/
theorem nodeExecLoop_allFail {E A : Type} (execB : Nat → Except E A)
    (fb : E → Except E A) (w : Int) (err : Nat → E) :
    ∀ rem i, (∀ j, j < i + rem + 1 → execB j = Except.error (err j)) →
      execCalls (nodeExecLoop execB fb w i (rem + 1)).2 = rem + 1 ∧
      fbEvents (nodeExecLoop execB fb w i (rem + 1)).2
        = [RunEv.fbCall (i + rem) (err (i + rem))] ∧
      (nodeExecLoop execB fb w i (rem + 1)).1 = fbOut (fb (err (i + rem))) := by
  intro rem
  induction rem with
  | zero =>
    intro i hfail
    have hei : execB i = Except.error (err i) := hfail i (by omega)
    rw [nodeExecLoop_err_last execB fb w i (err i) hei]
    simp [execCalls, fbEvents, isExecEv, isFbEv, List.filter]
  | succ rem ih =>
    intro i hfail
    have hei : execB i = Except.error (err i) := hfail i (by omega)
    have ih' := ih (i + 1) (fun j hj => hfail j (by omega))
    have harith : i + 1 + rem = i + (rem + 1) := by omega
    rw [harith] at ih'
    rw [nodeExecLoop_err_step execB fb w i (rem + 1) (err i) hei (by omega)]
    simp only [execCalls, fbEvents, List.filter_cons, List.filter_append,
      isExecEv, isFbEv, List.length_cons, List.length_append,
      (filter_waitEvs (E := E) (A := A) w).1, (filter_waitEvs (E := E) (A := A) w).2.1,
      List.nil_append, List.length_nil, cond_true, cond_false, if_true, if_false]
    simp only [execCalls, fbEvents] at ih'
    refine ⟨by omega, ih'.2.1, ih'.2.2⟩

/-- If the first successful attempt is attempt `i + m` (attempts `i` through
`i + m - 1` throw) and the loop has more than `m` iterations left, the
loop calls `exec` `m + 1` times, never calls `execFallback`, and returns
the successful value. -/
theorem nodeExecLoop_firstOk {E A : Type} (execB : Nat → Except E A)
    (fb : E → Except E A) (w : Int) :
    ∀ m i rem a, m < rem → (∀ j, j < m → ∃ e, execB (i + j) = Except.error e) →
      execB (i + m) = Except.ok a →
      execCalls (nodeExecLoop execB fb w i rem).2 = m + 1 ∧
      fbEvents (nodeExecLoop execB fb w i rem).2 = [] ∧
      (nodeExecLoop execB fb w i rem).1 = JsOut.ok a := by
  intro m
  induction m with
  | zero =>
    intro i rem a hrem _ hok
    obtain ⟨rem', rfl⟩ : ∃ rem', rem = rem' + 1 := ⟨rem - 1, by omega⟩
    have hok' : execB i = Except.ok a := by simpa using hok
    rw [nodeExecLoop_ok execB fb w i rem' a hok']
    simp [execCalls, fbEvents, isExecEv, isFbEv, List.filter]
  | succ m ih =>
    intro i rem a hrem hfail hok
    obtain ⟨rem', rfl⟩ : ∃ rem', rem = rem' + 1 := ⟨rem - 1, by omega⟩
    obtain ⟨e, he⟩ := hfail 0 (by omega)
    have he' : execB i = Except.error e := by simpa using he
    have ih' := ih (i + 1) rem' a (by omega)
      (fun j hj => by
        obtain ⟨e', he''⟩ := hfail (j + 1) (by omega)
        exact ⟨e', by rw [show i + 1 + j = i + (j + 1) by omega]; exact he''⟩)
      (by rw [show i + 1 + m = i + (m + 1) by omega]; exact hok)
    rw [nodeExecLoop_err_step execB fb w i rem' e he' (by omega)]
    simp only [execCalls, fbEvents, List.filter_cons, List.filter_append,
      isExecEv, isFbEv, List.length_cons, List.length_append,
      (filter_waitEvs (E := E) (A := A) w).1, (filter_waitEvs (E := E) (A := A) w).2.1,
      List.nil_append, List.length_nil, cond_true, cond_false, if_true, if_false]
    simp only [execCalls, fbEvents] at ih'
    refine ⟨by omega, ih'.2.1, ih'.2.2⟩

/-- C1: for a synchronous retrying Node with `maxRetries = k ≥ 1` driven
through `_exec`: if `exec` throws on every attempt, `exec` is invoked
exactly `k` times and `execFallback` exactly once, with `curRetry = k - 1`
and the last error, and with the default `execFallback` the call throws
the last error; if `exec` first returns normally on attempt index `j`
(0-based, so the `j + 1`-st invocation, `j + 1 ≤ k`), `exec` is invoked
exactly `j + 1` times, `_exec` returns that value, and `execFallback` is
never invoked. -/
theorem C1_retry_exec {E A : Type} (k : Nat) (hk : 1 ≤ k)
    (execB : Nat → Except E A) (w : Int) :
    (∀ err : Nat → E, (∀ j, j < k → execB j = Except.error (err j)) →
      ∀ fb : E → Except E A,
        execCalls (nodeExec execB fb w k).2 = k ∧
        fbEvents (nodeExec execB fb w k).2
          = [RunEv.fbCall (k - 1) (err (k - 1))] ∧
        (nodeExec execB fb w k).1 = fbOut (fb (err (k - 1))) ∧
        (nodeExec execB defaultFallback w k).1 = JsOut.thrown (err (k - 1)))
    ∧ (∀ j a, j < k → (∀ i, i < j → ∃ e, execB i = Except.error e) →
        execB j = Except.ok a →
        ∀ fb : E → Except E A,
          execCalls (nodeExec execB fb w k).2 = j + 1 ∧
          fbEvents (nodeExec execB fb w k).2 = [] ∧
          (nodeExec execB fb w k).1 = JsOut.ok a) := by
  obtain ⟨rem, rfl⟩ : ∃ rem, k = rem + 1 := ⟨k - 1, by omega⟩
  constructor
  · intro err hfail fb
    have h := nodeExecLoop_allFail execB fb w err rem 0
      (fun j hj => hfail j (by omega))
    have hd := nodeExecLoop_allFail execB defaultFallback w err rem 0
      (fun j hj => hfail j (by omega))
    have hidx : (0 : Nat) + rem = rem + 1 - 1 := by omega
    rw [hidx] at h hd
    refine ⟨h.1, h.2.1, h.2.2, ?_⟩
    rw [nodeExec, hd.2.2]
    rfl
  · intro j a hj hfailb hok fb
    have h := nodeExecLoop_firstOk execB fb w j 0 (rem + 1) a hj
      (fun i hi => by simpa using hfailb i hi) (by simpa using hok)
    exact h

/-- C1 witness: with `maxRetries = 2`, `wait = 1` and `exec` throwing its
attempt index every time, `exec` runs twice and the default fallback
re-throws the last error; with `exec` failing once then returning `5`
under `maxRetries = 3`, `exec` runs twice and `_exec` returns `5`. -/
theorem C1_retry_exec_witness :
    (execCalls (nodeExec (fun j => (Except.error j : Except Nat Nat))
        defaultFallback 1 2).2 = 2
     ∧ fbEvents (nodeExec (fun j => (Except.error j : Except Nat Nat))
        defaultFallback 1 2).2 = [RunEv.fbCall 1 1]
     ∧ (nodeExec (fun j => (Except.error j : Except Nat Nat))
        defaultFallback 1 2).1 = JsOut.thrown 1)
    ∧ (execCalls (nodeExec
        (fun j => if j = 0 then Except.error 0 else (Except.ok 5 : Except Nat Nat))
        defaultFallback 1 3).2 = 2
     ∧ (nodeExec
        (fun j => if j = 0 then Except.error 0 else (Except.ok 5 : Except Nat Nat))
        defaultFallback 1 3).1 = JsOut.ok 5) := by
  constructor
  · have h := (C1_retry_exec 2 (by omega)
      (fun j => (Except.error j : Except Nat Nat)) 1).1
      (fun j => j) (fun j _ => rfl) defaultFallback
    exact ⟨h.1, h.2.1, h.2.2.2⟩
  · have h := (C1_retry_exec 3 (by omega)
      (fun j => if j = 0 then Except.error 0 else (Except.ok 5 : Except Nat Nat)) 1).2
      1 5 (by omega)
      (fun i hi => by
        have : i = 0 := by omega
        subst this
        exact ⟨0, rfl⟩)
      rfl defaultFallback
    exact ⟨h.1, h.2.2⟩

/-- The value and the exec/fallback sequence of the retry loop do not depend
on `wait`; the events a positive `wait` adds are only the warning and the
scheduling of the deferred no-op. -/
theorem nodeExecLoop_wait_indep {E A : Type} (execB : Nat → Except E A)
    (fb : E → Except E A) (w : Int) :
    ∀ rem i,
      (nodeExecLoop execB fb w i rem).1 = (nodeExecLoop execB fb 0 i rem).1
      ∧ coreEvents (nodeExecLoop execB fb w i rem).2
          = coreEvents (nodeExecLoop execB fb 0 i rem).2
      ∧ (∀ ev ∈ (nodeExecLoop execB fb w i rem).2, isCoreEv ev = false →
          ev = RunEv.warnEv syncWaitMsg ∨ ev = RunEv.schedTimeout (w * 1000)) := by
  intro rem
  induction rem with
  | zero =>
    intro i
    refine ⟨rfl, rfl, ?_⟩
    intro ev hev
    simp [nodeExecLoop] at hev
  | succ rem ih =>
    intro i
    match hei : execB i with
    | .ok a =>
      rw [nodeExecLoop_ok execB fb w i rem a hei, nodeExecLoop_ok execB fb 0 i rem a hei]
      refine ⟨rfl, rfl, ?_⟩
      intro ev hev hcore
      simp only [List.mem_singleton] at hev
      subst hev
      simp [isCoreEv, isExecEv] at hcore
    | .error e =>
      by_cases hrem : rem = 0
      · subst hrem
        rw [nodeExecLoop_err_last execB fb w i e hei,
          nodeExecLoop_err_last execB fb 0 i e hei]
        refine ⟨rfl, rfl, ?_⟩
        intro ev hev hcore
        simp only [List.mem_cons, List.mem_singleton, List.not_mem_nil] at hev
        rcases hev with rfl | rfl | h
        · simp [isCoreEv, isExecEv] at hcore
        · simp [isCoreEv, isFbEv] at hcore
        · exact h.elim
      · have ih' := ih (i + 1)
        rw [nodeExecLoop_err_step execB fb w i rem e hei hrem,
          nodeExecLoop_err_step execB fb 0 i rem e hei hrem]
        refine ⟨ih'.1, ?_, ?_⟩
        · simp only [coreEvents, List.filter_cons, List.filter_append,
            (filter_waitEvs (E := E) (A := A) w).2.2,
            (filter_waitEvs (E := E) (A := A) 0).2.2, List.nil_append]
          simp only [coreEvents] at ih'
          rw [ih'.2.1]
        · intro ev hev hcore
          simp only [List.mem_cons, List.mem_append] at hev
          rcases hev with rfl | hev | hev
          · simp [isCoreEv, isExecEv] at hcore
          · by_cases hw : (0 : Int) < w
            · simp only [hw, if_true] at hev
              simp only [List.mem_cons, List.not_mem_nil] at hev
              rcases hev with rfl | rfl | h
              · exact Or.inl rfl
              · exact Or.inr rfl
              · exact h.elim
            · simp [hw] at hev
          · exact ih'.2.2 ev hev hcore

/-- C6: for the synchronous Node family the retry delay never changes the
outcome: the `_exec` value and the exec/fallback invocation sequence are
identical for every `wait ≥ 0` (compared against `wait = 0`); the only
further events of a positive `wait` are the warning and the scheduling of
a deferred no-op `setTimeout`, which do occur whenever a positive wait
meets a non-final failed attempt — the documented pause is never
performed on this path. -/
theorem C6_sync_wait_noop {E A : Type} (execB : Nat → Except E A)
    (fb : E → Except E A) (k : Nat) (w : Int) (hw0 : 0 ≤ w) :
    ((nodeExec execB fb w k).1 = (nodeExec execB fb 0 k).1
     ∧ coreEvents (nodeExec execB fb w k).2 = coreEvents (nodeExec execB fb 0 k).2)
    ∧ (∀ ev ∈ (nodeExec execB fb w k).2, isCoreEv ev = false →
        ev = RunEv.warnEv syncWaitMsg ∨ ev = RunEv.schedTimeout (w * 1000))
    ∧ (0 < w → 2 ≤ k → (∀ e, execB 0 = Except.error e →
        RunEv.warnEv syncWaitMsg ∈ (nodeExec execB fb w k).2
        ∧ RunEv.schedTimeout (w * 1000) ∈ (nodeExec execB fb w k).2)) := by
  have h := nodeExecLoop_wait_indep execB fb w k 0
  refine ⟨⟨h.1, h.2.1⟩, h.2.2, ?_⟩
  intro hw hk e he
  obtain ⟨rem, rfl⟩ : ∃ rem, k = rem + 2 := ⟨k - 2, by omega⟩
  rw [nodeExec, nodeExecLoop_err_step execB fb w 0 (rem + 1) e he (by omega)]
  simp [hw, List.mem_cons]

/-- C6 witness: with `wait = 3` and `exec` always failing under
`maxRetries = 2`, the `_exec` value matches the `wait = 0` run and the
warning and deferred-timeout events are present. -/
theorem C6_sync_wait_noop_witness :
    ((nodeExec (fun j => (Except.error j : Except Nat Nat)) defaultFallback 3 2).1
       = (nodeExec (fun j => (Except.error j : Except Nat Nat)) defaultFallback 0 2).1)
    ∧ RunEv.warnEv syncWaitMsg
        ∈ (nodeExec (fun j => (Except.error j : Except Nat Nat)) defaultFallback 3 2).2
    ∧ RunEv.schedTimeout 3000
        ∈ (nodeExec (fun j => (Except.error j : Except Nat Nat)) defaultFallback 3 2).2 := by
  have h := C6_sync_wait_noop (fun j => (Except.error j : Except Nat Nat))
    defaultFallback 2 3 (by omega)
  have h2 := h.2.2 (by omega) (by omega) 0 rfl
  exact ⟨h.1.1, h2.1, h2.2⟩

/-- C7: driving an asynchronous node through the purely synchronous entry
path (`_run`) throws the "cannot be run synchronously" error and invokes
no lifecycle phase, for every choice of lifecycle overrides and shared
context; the synchronous family's `_run` by contrast runs prep, exec and
post in order. -/
theorem C7_async_sync_run_rejects {σ α ε : Type} (prepF : σ → α) (execF : α → ε)
    (postF : σ → α → ε → Option String) (sh : σ) :
    nodeRunSyncEntry true prepF execF postF sh = (Except.error asyncRunErrMsg, [])
    ∧ nodeRunSyncEntry false prepF execF postF sh
        = (Except.ok (postF sh (prepF sh) (execF (prepF sh))),
           [PhaseEv.prepPhase, PhaseEv.execPhase, PhaseEv.postPhase]) :=
  ⟨rfl, rfl⟩

/-- C9 counterexample: after `clearWarningHandlers`, `warnings.warn`
invokes no handler at all — in particular nothing reaches the standard
error stream — whereas with the initial handler list the message does go
to standard error via `console.warn`.  This contradicts the claim that a
cleared warning channel falls back to a standard-error default. -/
theorem C9_clear_drops_warning_cex :
    warnDispatch (clearHandlers initialHandlers) "w" = []
    ∧ stderrWrites (warnDispatch (clearHandlers initialHandlers) "w") = []
    ∧ ¬ stderrWrites (warnDispatch (clearHandlers initialHandlers) "w") = ["w"]
    ∧ stderrWrites (warnDispatch initialHandlers "w") = ["w"] := by
  refine ⟨rfl, rfl, ?_, rfl⟩
  decide

/-- C9 amended: after clearing all warning handlers a subsequently emitted
warning invokes no handler and is dropped (it is not written to standard
error); warnings reach the standard error stream by default only because
`console.warn` is the initially registered handler. -/
theorem C9_warn_after_clear (hs : List WHandler) (msg : String) :
    warnDispatch (clearHandlers hs) msg = []
    ∧ stderrWrites (warnDispatch (clearHandlers hs) msg) = []
    ∧ stderrWrites (warnDispatch initialHandlers msg) = [msg] := by
  refine ⟨rfl, rfl, ?_⟩
  simp [warnDispatch, initialHandlers, stderrWrites, isConsoleWarn]

/-- C5 counterexample: `BatchNode._exec` on a falsy (hence non-array) input
returns `[]` immediately, emitting no warning, no `exec` call and no
one-element result array — contradicting the claim that every non-array
input warns and is treated as a single-element sequence. -/
theorem C5_batch_falsy_cex :
    batchNodeExec (fun (x : Nat) (_ : Nat) => (Except.ok x : Except Nat Nat))
        (fun _ e => Except.error e) 0 1 BInput.falsyIn
      = (Except.ok [], [], [])
    ∧ ¬ (batchNodeExec (fun (x : Nat) (_ : Nat) => (Except.ok x : Except Nat Nat))
        (fun _ e => Except.error e) 0 1 BInput.falsyIn).2.2.length = 1 := by
  exact ⟨rfl, by decide⟩

/-- C5 amended: `BatchNode._exec` on a falsy input returns `[]` with no
warning and no `exec` call; on an array it runs every element
independently through the inherited retry logic — each element's loop
starting at attempt 0 — collecting, when every element's retried run
succeeds, the results in input order with the per-element traces
concatenated in order and no warning; on a *truthy* non-array input it
emits one warning and returns the one-element array of that input's
retried result. -/
theorem C5_batch_node_exec {ι E A : Type} (execB : ι → Nat → Except E A)
    (fb : ι → E → Except E A) (w : Int) (mr : Nat) :
    (batchNodeExec execB fb w mr BInput.falsyIn = (Except.ok [], [], []))
    ∧ (∀ (xs : List ι) (v : ι → A),
        (∀ x ∈ xs, (nodeExec (execB x) (fb x) w mr).1 = JsOut.ok (v x)) →
        (batchNodeExec execB fb w mr (BInput.arr xs)).1
            = Except.ok (xs.map (fun x => some (v x)))
        ∧ (batchNodeExec execB fb w mr (BInput.arr xs)).2.1
            = (xs.map (fun x => (nodeExec (execB x) (fb x) w mr).2)).flatten
        ∧ (batchNodeExec execB fb w mr (BInput.arr xs)).2.2 = [])
    ∧ (∀ (x : ι) (tyName : String),
        (batchNodeExec execB fb w mr (BInput.scalar x tyName)).1
            = (jsOutToElem (nodeExec (execB x) (fb x) w mr).1).map (fun u => [u])
        ∧ (batchNodeExec execB fb w mr (BInput.scalar x tyName)).2.1
            = (nodeExec (execB x) (fb x) w mr).2
        ∧ (batchNodeExec execB fb w mr (BInput.scalar x tyName)).2.2
            = [batchWarnMsg tyName])
    ∧ (∀ x : ι, 1 ≤ mr →
        ∃ r rest, (nodeExec (execB x) (fb x) w mr).2 = RunEv.execCall 0 r :: rest) := by
  refine ⟨rfl, ?_, fun x tyName => ⟨rfl, rfl, rfl⟩, ?_⟩
  · intro xs v hok
    induction xs with
    | nil => exact ⟨rfl, rfl, rfl⟩
    | cons x xs ih =>
      have hx : (nodeExec (execB x) (fb x) w mr).1 = JsOut.ok (v x) :=
        hok x (List.mem_cons_self x xs)
      have ih' := ih (fun y hy => hok y (List.mem_cons_of_mem x hy))
      refine ⟨?_, ?_, rfl⟩
      · show (batchElems execB fb w mr (x :: xs)).1 = _
        rw [batchElems, hx]
        have h1 : (batchElems execB fb w mr xs).1
            = Except.ok (xs.map (fun y => some (v y))) := ih'.1
        simp [jsOutToElem, h1, Except.map]
      · show (batchElems execB fb w mr (x :: xs)).2 = _
        rw [batchElems, hx]
        have h2 : (batchElems execB fb w mr xs).2
            = (xs.map (fun y => (nodeExec (execB y) (fb y) w mr).2)).flatten := ih'.2.1
        simp [jsOutToElem, h2]
  · intro x hmr
    obtain ⟨rem, rfl⟩ : ∃ rem, mr = rem + 1 := ⟨mr - 1, by omega⟩
    match he : execB x 0 with
    | .ok a =>
      exact ⟨.ok a, [], by rw [nodeExec, nodeExecLoop_ok (execB x) (fb x) w 0 rem a he]⟩
    | .error e =>
      by_cases hrem : rem = 0
      · subst hrem
        exact ⟨.error e, [.fbCall 0 e],
          by rw [nodeExec, nodeExecLoop_err_last (execB x) (fb x) w 0 e he]⟩
      · exact ⟨.error e,
          (if 0 < w then [.warnEv syncWaitMsg, .schedTimeout (w * 1000)] else [])
            ++ (nodeExecLoop (execB x) (fb x) w 1 rem).2,
          by rw [nodeExec, nodeExecLoop_err_step (execB x) (fb x) w 0 rem e he hrem]⟩

/-- C5 witness for the amended statement: a two-element batch maps both
elements in order with no warning; a truthy non-array input produces the
warning and a one-element result. -/
theorem C5_batch_node_exec_witness :
    (batchNodeExec (fun (x : Nat) (_ : Nat) => (Except.ok (x + 10) : Except Nat Nat))
        (fun _ e => Except.error e) 0 1 (BInput.arr [4, 7])).1
      = Except.ok [some 14, some 17]
    ∧ (batchNodeExec (fun (x : Nat) (_ : Nat) => (Except.ok (x + 10) : Except Nat Nat))
        (fun _ e => Except.error e) 0 1 (BInput.scalar 4 "number")).2.2
      = [batchWarnMsg "number"] := by
  have h := C5_batch_node_exec
    (fun (x : Nat) (_ : Nat) => (Except.ok (x + 10) : Except Nat Nat))
    (fun _ e => Except.error e) 0 1
  exact ⟨(h.2.1 [4, 7] (fun x => x + 10) (fun x _ => rfl)).1,
    (h.2.2.1 4 "number").2.2⟩

/-- Unfolding one iteration of the orchestration loop on a current node. -/
theorem orchLoop_some {ν β σ : Type} (interp : β → σ → PMap ν → σ × Option String)
    (pref fuel : Nat) (s : Store ν β) (sh : σ) (c : Nat) (la : Option String) :
    orchLoop interp pref (fuel + 1) s sh (some c) la =
      (let cp := shallowCopyNode s c
       let s2 := setParamsRef cp.2 cp.1 pref
       let step := interp (s2.nodes cp.1).behav sh (paramsOf s2 cp.1)
       let nx := getNextNodeFn (succOf s2 c) step.2
       let r := orchLoop interp pref fuel s2 step.1 nx.1 step.2
       ⟨r.store, r.shared, r.lastAction, nx.2 ++ r.warns⟩) := rfl

/-- The store after one clone-and-set-params step: the clone is allocated at
`s.nextNode`; every previously allocated node object, both map heaps and
the map allocation counters are untouched. -/
theorem stepStore_props {ν β : Type} (s : Store ν β) (c pref : Nat) :
    (∀ n, n < s.nextNode →
      (setParamsRef (shallowCopyNode s c).2 (shallowCopyNode s c).1 pref).nodes n
        = s.nodes n)
    ∧ (setParamsRef (shallowCopyNode s c).2 (shallowCopyNode s c).1 pref).pmaps = s.pmaps
    ∧ (setParamsRef (shallowCopyNode s c).2 (shallowCopyNode s c).1 pref).smaps = s.smaps
    ∧ (setParamsRef (shallowCopyNode s c).2 (shallowCopyNode s c).1 pref).nextNode
        = s.nextNode + 1
    ∧ (setParamsRef (shallowCopyNode s c).2 (shallowCopyNode s c).1 pref).nextP = s.nextP
    ∧ (setParamsRef (shallowCopyNode s c).2 (shallowCopyNode s c).1 pref).nextS = s.nextS := by
  refine ⟨?_, rfl, rfl, rfl, rfl, rfl⟩
  intro n hn
  have hne : n ≠ s.nextNode := by omega
  simp [setParamsRef, shallowCopyNode, allocNode, updFn, hne]

/-- Frame property of the orchestration loop: the loop only allocates fresh
node objects (the per-step clones) and redirects *their* params
references; every node object allocated before the run, both map heaps in
their entirety, and the map allocation counters are unchanged. -/
theorem orchLoop_frame {ν β σ : Type} (interp : β → σ → PMap ν → σ × Option String)
    (pref : Nat) :
    ∀ (fuel : Nat) (s : Store ν β) (sh : σ) (curr : Option Nat) (la : Option String),
      (∀ n, n < s.nextNode →
        (orchLoop interp pref fuel s sh curr la).store.nodes n = s.nodes n)
      ∧ (orchLoop interp pref fuel s sh curr la).store.pmaps = s.pmaps
      ∧ (orchLoop interp pref fuel s sh curr la).store.smaps = s.smaps
      ∧ s.nextNode ≤ (orchLoop interp pref fuel s sh curr la).store.nextNode
      ∧ (orchLoop interp pref fuel s sh curr la).store.nextP = s.nextP
      ∧ (orchLoop interp pref fuel s sh curr la).store.nextS = s.nextS := by
  intro fuel
  induction fuel with
  | zero =>
    intro s sh curr la
    exact ⟨fun n _ => rfl, rfl, rfl, Nat.le_refl _, rfl, rfl⟩
  | succ fuel ih =>
    intro s sh curr la
    cases curr with
    | none => exact ⟨fun n _ => rfl, rfl, rfl, Nat.le_refl _, rfl, rfl⟩
    | some c =>
      simp only [orchLoop_some]
      have hs2 := stepStore_props s c pref
      have ih' := ih (setParamsRef (shallowCopyNode s c).2 (shallowCopyNode s c).1 pref)
        (interp ((setParamsRef (shallowCopyNode s c).2 (shallowCopyNode s c).1 pref).nodes
            (shallowCopyNode s c).1).behav sh
          (paramsOf (setParamsRef (shallowCopyNode s c).2 (shallowCopyNode s c).1 pref)
            (shallowCopyNode s c).1)).1
        (getNextNodeFn
          (succOf (setParamsRef (shallowCopyNode s c).2 (shallowCopyNode s c).1 pref) c)
          (interp ((setParamsRef (shallowCopyNode s c).2 (shallowCopyNode s c).1 pref).nodes
              (shallowCopyNode s c).1).behav sh
            (paramsOf (setParamsRef (shallowCopyNode s c).2 (shallowCopyNode s c).1 pref)
              (shallowCopyNode s c).1)).2).1
        (interp ((setParamsRef (shallowCopyNode s c).2 (shallowCopyNode s c).1 pref).nodes
            (shallowCopyNode s c).1).behav sh
          (paramsOf (setParamsRef (shallowCopyNode s c).2 (shallowCopyNode s c).1 pref)
            (shallowCopyNode s c).1)).2
      refine ⟨?_, ?_, ?_, ?_, ?_, ?_⟩
      · intro n hn
        have h1 := ih'.1 n (by rw [hs2.2.2.2.1]; omega)
        exact h1.trans (hs2.1 n hn)
      · exact ih'.2.1.trans hs2.2.1
      · exact ih'.2.2.1.trans hs2.2.2.1
      · have := ih'.2.2.2.1
        rw [hs2.2.2.2.1] at this
        omega
      · exact ih'.2.2.2.2.1.trans hs2.2.2.2.2.1
      · exact ih'.2.2.2.2.2.trans hs2.2.2.2.2.2

/-- Frame property of `_orchestrate`: on top of the loop's frame property,
the only further store effect is the possible allocation (at a fresh
reference) of the `{...this.params}` copy when no override parameter map
is supplied. -/
theorem orchestrate_frame {ν β σ : Type}
    (interp : β → σ → PMap ν → σ × Option String) (s : Store ν β) (sh : σ)
    (start : Option Nat) (params : Option Nat) (fr fuel : Nat) :
    (∀ n, n < s.nextNode →
      (orchestrate interp s sh start params fr fuel).store.nodes n = s.nodes n)
    ∧ (∀ m, m < s.nextP →
      (orchestrate interp s sh start params fr fuel).store.pmaps m = s.pmaps m)
    ∧ (orchestrate interp s sh start params fr fuel).store.smaps = s.smaps
    ∧ s.nextNode ≤ (orchestrate interp s sh start params fr fuel).store.nextNode
    ∧ s.nextP ≤ (orchestrate interp s sh start params fr fuel).store.nextP
    ∧ (orchestrate interp s sh start params fr fuel).store.nextS = s.nextS := by
  cases start with
  | none =>
    exact ⟨fun n _ => rfl, fun m _ => rfl, rfl, Nat.le_refl _, Nat.le_refl _, rfl⟩
  | some st =>
    cases params with
    | some pref =>
      have h := orchLoop_frame interp pref fuel s sh (some st) none
      exact ⟨h.1, fun m _ => congrFun h.2.1 m, h.2.2.1, h.2.2.2.1,
        Nat.le_of_eq h.2.2.2.2.1.symm, h.2.2.2.2.2⟩
    | none =>
      have h := orchLoop_frame interp s.nextP fuel
        (allocPmap s (s.pmaps fr)).2 sh (some st) none
      have halloc : (allocPmap s (s.pmaps fr)).2.nextNode = s.nextNode := rfl
      refine ⟨?_, ?_, ?_, ?_, ?_, ?_⟩
      · intro n hn
        exact (h.1 n (by rw [halloc]; omega)).trans rfl
      · intro m hm
        have hm' : m ≠ s.nextP := by omega
        have := congrFun h.2.1 m
        exact this.trans (by simp [allocPmap, updFn, hm'])
      · exact h.2.2.1.trans rfl
      · exact h.2.2.2.1
      · have : (orchestrate interp s sh (some st) none fr fuel).store.nextP
            = s.nextP + 1 := h.2.2.2.2.1
        omega
      · exact h.2.2.2.2.2

/-- C3: orchestration never mutates the canonical nodes — for any node graph,
override parameter map, shared context and iteration bound, every node
object allocated before the run and every params map allocated before the
run are unchanged, so each original node's params mapping is intact; in
particular running the same flow twice with different shared contexts and
different override parameter maps leaves every original node's params
mapping exactly as before either run (no cross-talk). -/
theorem C3_orchestrate_param_isolation {ν β σ : Type}
    (interp : β → σ → PMap ν → σ × Option String) (s : Store ν β)
    (sh1 sh2 : σ) (start1 start2 : Option Nat) (p1 p2 : Option Nat)
    (fr1 fr2 fuel1 fuel2 : Nat) :
    (∀ n, n < s.nextNode →
      (orchestrate interp s sh1 start1 p1 fr1 fuel1).store.nodes n = s.nodes n)
    ∧ (∀ m, m < s.nextP →
      (orchestrate interp s sh1 start1 p1 fr1 fuel1).store.pmaps m = s.pmaps m)
    ∧ (∀ n, n < s.nextNode → (s.nodes n).paramsRef < s.nextP →
      paramsOf (orchestrate interp s sh1 start1 p1 fr1 fuel1).store n = paramsOf s n)
    ∧ (∀ n, n < s.nextNode → (s.nodes n).paramsRef < s.nextP →
      (orchestrate interp
          (orchestrate interp s sh1 start1 p1 fr1 fuel1).store
          sh2 start2 p2 fr2 fuel2).store.nodes n = s.nodes n
      ∧ paramsOf (orchestrate interp
          (orchestrate interp s sh1 start1 p1 fr1 fuel1).store
          sh2 start2 p2 fr2 fuel2).store n = paramsOf s n) := by
  have h1 := orchestrate_frame interp s sh1 start1 p1 fr1 fuel1
  have hparams : ∀ n, n < s.nextNode → (s.nodes n).paramsRef < s.nextP →
      paramsOf (orchestrate interp s sh1 start1 p1 fr1 fuel1).store n = paramsOf s n := by
    intro n hn hp
    show (orchestrate interp s sh1 start1 p1 fr1 fuel1).store.pmaps
        (((orchestrate interp s sh1 start1 p1 fr1 fuel1).store.nodes n).paramsRef)
      = s.pmaps ((s.nodes n).paramsRef)
    rw [h1.1 n hn, h1.2.1 _ hp]
  refine ⟨h1.1, h1.2.1, hparams, ?_⟩
  intro n hn hp
  have h2 := orchestrate_frame interp
    (orchestrate interp s sh1 start1 p1 fr1 fuel1).store sh2 start2 p2 fr2 fuel2
  have hn2 : n < (orchestrate interp s sh1 start1 p1 fr1 fuel1).store.nextNode :=
    Nat.lt_of_lt_of_le hn h1.2.2.2.1
  have hp2 : (s.nodes n).paramsRef
      < (orchestrate interp s sh1 start1 p1 fr1 fuel1).store.nextP :=
    Nat.lt_of_lt_of_le hp h1.2.2.2.2.1
  have hnodes2 : (orchestrate interp
      (orchestrate interp s sh1 start1 p1 fr1 fuel1).store
      sh2 start2 p2 fr2 fuel2).store.nodes n = s.nodes n :=
    (h2.1 n hn2).trans (h1.1 n hn)
  refine ⟨hnodes2, ?_⟩
  show (orchestrate interp (orchestrate interp s sh1 start1 p1 fr1 fuel1).store
        sh2 start2 p2 fr2 fuel2).store.pmaps
      (((orchestrate interp (orchestrate interp s sh1 start1 p1 fr1 fuel1).store
        sh2 start2 p2 fr2 fuel2).store.nodes n).paramsRef)
    = s.pmaps ((s.nodes n).paramsRef)
  rw [hnodes2, h2.2.1 _ hp2, h1.2.1 _ hp]

/-- C3 witness: a concrete flow run over the three-node store leaves node 0's
object and params mapping untouched. -/
theorem C3_orchestrate_param_isolation_witness :
    (orchestrate scenInterp scenStore [] (some 0) none 0 5).store.nodes 0
        = scenStore.nodes 0
    ∧ paramsOf (orchestrate scenInterp scenStore [] (some 0) none 0 5).store 0
        = paramsOf scenStore 0 := by
  have h := C3_orchestrate_param_isolation scenInterp scenStore [] [] (some 0) (some 0)
    none none 0 0 5 5
  exact ⟨h.1 0 (by decide), h.2.2.1 0 (by decide) (by decide)⟩

/-- The `for (const bp of pr)` loop of `BatchFlow._run` passes each
orchestration call the flow's own params merged with that iteration's
parameter mapping, in input order (the flow's own params map is untouched
by the sub-runs). -/
theorem batchFlowLoop_args {ν β σ : Type}
    (interp : β → σ → PMap ν → σ × Option String) (fuel fr : Nat)
    (start : Option Nat) :
    ∀ (ps : List (PMap ν)) (s : Store ν β) (sh : σ), fr < s.nextP →
      (batchFlowLoop interp fuel fr start ps s sh).2.2.1
        = ps.map (fun bp => jsMerge (s.pmaps fr) bp) := by
  intro ps
  induction ps with
  | nil => intro s sh _; rfl
  | cons bp rest ih =>
    intro s sh hfr
    have hne : fr ≠ s.nextP := by omega
    have hs1p : (allocPmap s (jsMerge (s.pmaps fr) bp)).2.pmaps fr = s.pmaps fr := by
      simp [allocPmap, updFn, hne]
    have hf := orchestrate_frame interp (allocPmap s (jsMerge (s.pmaps fr) bp)).2 sh
      start (some (allocPmap s (jsMerge (s.pmaps fr) bp)).1) fr fuel
    have hs1n : (allocPmap s (jsMerge (s.pmaps fr) bp)).2.nextP = s.nextP + 1 := rfl
    have hrp : (orchestrate interp (allocPmap s (jsMerge (s.pmaps fr) bp)).2 sh
        start (some (allocPmap s (jsMerge (s.pmaps fr) bp)).1) fr fuel).store.pmaps fr
        = s.pmaps fr :=
      (hf.2.1 fr (by omega)).trans hs1p
    have hrn : fr < (orchestrate interp (allocPmap s (jsMerge (s.pmaps fr) bp)).2 sh
        start (some (allocPmap s (jsMerge (s.pmaps fr) bp)).1) fr fuel).store.nextP := by
      have := hf.2.2.2.2.1
      omega
    have ih' := ih (orchestrate interp (allocPmap s (jsMerge (s.pmaps fr) bp)).2 sh
        start (some (allocPmap s (jsMerge (s.pmaps fr) bp)).1) fr fuel).store
      (orchestrate interp (allocPmap s (jsMerge (s.pmaps fr) bp)).2 sh
        start (some (allocPmap s (jsMerge (s.pmaps fr) bp)).1) fr fuel).shared hrn
    rw [hrp] at ih'
    simp only [batchFlowLoop, List.map_cons]
    rw [ih']

/-- C4: a `BatchFlow` whose prep phase yields the parameter mappings
`[p1, …, pn]` invokes `_orchestrate` exactly `n` times, sequentially in
input order, the i-th time with a params map equal to the flow's own
params merged with `p_i` (`p_i`'s keys winning), discarding each
sub-run's action label; `post` then receives the parameter sequence as
the prep result and `null` as the execution result — and the execution
result handed to `post` is `null` for every prep shape. -/
theorem C4_batch_flow_run {ν β σ : Type}
    (interp : β → σ → PMap ν → σ × Option String) (ps : List (PMap ν))
    (fuel fr : Nat) (start : Option Nat) (s : Store ν β) (sh : σ)
    (hfr : fr < s.nextP) :
    (batchFlowRun interp (BPrep.arrP ps) fuel fr start s sh).orchArgs
        = ps.map (fun bp => jsMerge (s.pmaps fr) bp)
    ∧ (batchFlowRun interp (BPrep.arrP ps) fuel fr start s sh).orchArgs.length
        = ps.length
    ∧ (batchFlowRun interp (BPrep.arrP ps) fuel fr start s sh).postPrepArg
        = BPrep.arrP ps
    ∧ (∀ pr : BPrep ν,
        (batchFlowRun interp pr fuel fr start s sh).postExecArg = none) := by
  have h : (batchFlowRun interp (BPrep.arrP ps) fuel fr start s sh).orchArgs
      = ps.map (fun bp => jsMerge (s.pmaps fr) bp) :=
    batchFlowLoop_args interp fuel fr start ps s sh hfr
  refine ⟨h, by rw [h, List.length_map], rfl, ?_⟩
  intro pr
  cases pr <;> rfl

/-- C4 witness: prep yielding two parameter mappings drives two
orchestrations, in order, with the mappings merged over the flow's (empty)
own params, and `post` receives `null` as the execution result. -/
theorem C4_batch_flow_run_witness :
    (batchFlowRun scenInterp (BPrep.arrP [[("id", 1)], [("id", 2)]]) 3 0 (some 0)
        scenStore []).orchArgs = [[("id", 1)], [("id", 2)]]
    ∧ (batchFlowRun scenInterp (BPrep.arrP [[("id", 1)], [("id", 2)]]) 3 0 (some 0)
        scenStore []).postExecArg = none := by
  have h := C4_batch_flow_run scenInterp [[("id", 1)], [("id", 2)]] 3 0 (some 0)
    scenStore [] (by decide)
  exact ⟨h.1.trans (by decide), h.2.2.2 _⟩

/-- C2 counterexample: the successors map is a plain object literal, so the
read `successors["toString"]` hits the prototype chain — over the
non-empty map `{a: 3}` the unregistered label `"toString"` yields a
truthy inherited non-node with NO warning (the claim demands exactly one
warning and no node), and over the empty map the same label yields the
truthy inherited value rather than no node. -/
theorem C2_proto_label_cex :
    getNextNodeJs [("a", 3)] (some "toString") = (SuccRead.inherited, [])
    ∧ ¬ (getNextNodeJs [("a", 3)] (some "toString")).2.length = 1
    ∧ getNextNodeJs [] (some "toString") = (SuccRead.inherited, []) := by
  decide

/-- C2 amended: successor lookup coerces an absent or empty action label to
`"default"`; a label registered in the successors map yields the mapped
node with no warning; an unregistered label that names an
`Object.prototype` member (`"toString"`, `"constructor"`, `"__proto__"`,
…) yields a truthy inherited non-node value with no warning — the flow
neither ends cleanly nor warns there; every other unmatched label yields
no node, with exactly one warning naming the label and the available
labels when the successors map is non-empty and silently when it is
empty; away from the `Object.prototype` member names the lookup agrees
with the own-key model used by the orchestrator; and a concrete flow
whose start node's post-process returns `""` proceeds to the `"default"`
successor (node 2 runs, as the shared visit log shows). -/
theorem C2_get_next_node_proto (succ : PMap Nat) (action : Option String) :
    (getNextNodeJs succ none = getNextNodeJs succ (some "default")
      ∧ getNextNodeJs succ (some "") = getNextNodeJs succ (some "default"))
    ∧ (∀ nid, lookupEntry succ (coerceAction action) = some nid →
        getNextNodeJs succ action = (SuccRead.node nid, []))
    ∧ (lookupEntry succ (coerceAction action) = none →
        coerceAction action ∈ objectProtoKeys →
        getNextNodeJs succ action = (SuccRead.inherited, []))
    ∧ (lookupEntry succ (coerceAction action) = none →
        coerceAction action ∉ objectProtoKeys → succ ≠ [] →
        getNextNodeJs succ action
          = (SuccRead.absent,
             [flowEndsMsg (coerceAction action) (succ.map Prod.fst)]))
    ∧ (coerceAction action ∉ objectProtoKeys → succ = [] →
        getNextNodeJs succ action = (SuccRead.absent, []))
    ∧ (coerceAction action ∉ objectProtoKeys →
        (getNextNodeJs succ action).2 = (getNextNodeFn succ action).2
        ∧ (getNextNodeJs succ action).1
            = (match (getNextNodeFn succ action).1 with
               | some nid => SuccRead.node nid
               | none => SuccRead.absent))
    ∧ (orchestrate scenInterp scenStore [] (some 0) none 0 5).shared = [0, 2] := by
  refine ⟨⟨rfl, rfl⟩, ?_, ?_, ?_, ?_, ?_, by decide⟩
  · intro nid h
    simp [getNextNodeJs, jsPropRead, h]
  · intro h hp
    simp [getNextNodeJs, jsPropRead, h, hp]
  · intro h hnp hne
    cases succ with
    | nil => exact absurd rfl hne
    | cons hd tl => simp [getNextNodeJs, jsPropRead, h, hnp]
  · intro hnp hs
    subst hs
    simp [getNextNodeJs, jsPropRead, lookupEntry, hnp]
  · intro hnp
    cases hl : lookupEntry succ (coerceAction action) with
    | some nid =>
      constructor <;> simp [getNextNodeJs, getNextNodeFn, jsPropRead, hl]
    | none =>
      by_cases he : succ.isEmpty <;>
        constructor <;>
          simp [getNextNodeJs, getNextNodeFn, jsPropRead, hl, hnp, he]

/-- C2 witness for the amended statement: an unmatched non-prototype label
over `{a: 3}` warns once and yields no node; the empty-string label over
`{go: 1, default: 2}` yields node 2. -/
theorem C2_get_next_node_proto_witness :
    getNextNodeJs [("a", 3)] (some "x")
      = (SuccRead.absent, [flowEndsMsg "x" ["a"]])
    ∧ getNextNodeJs [("go", 1), ("default", 2)] (some "")
      = (SuccRead.node 2, []) := by
  refine ⟨?_, ?_⟩
  · have h := (C2_get_next_node_proto [("a", 3)] (some "x")).2.2.2.1
      (by decide) (by decide) (by decide)
    exact h.trans (by decide)
  · exact (C2_get_next_node_proto [("go", 1), ("default", 2)] (some "")).2.1 2
      (by decide)

/-- `m[k] = v` makes a subsequent read of `k` yield `v`. -/
theorem lookupEntry_setEntry_self {ν : Type} (m : PMap ν) (k : String) (v : ν) :
    lookupEntry (setEntry m k v) k = some v := by
  induction m with
  | nil => simp [setEntry, lookupEntry]
  | cons kv rest ih =>
    obtain ⟨k', v'⟩ := kv
    by_cases hk : k' = k
    · simp [setEntry, hk, lookupEntry]
    · simp [setEntry, hk, lookupEntry, ih]

/-- C8 counterexample: the per-run shallow clone *shares* the original's
successors and params map references, so mutating an entry of the clone's
successors map (or params map) alters the original node's map — here node
0's successors change from `{go: 7}` to `{go: 9}` through the clone, and
its params from `{a: 1}` to `{a: 5}` — contradicting the claim that the
maps are duplicated and such mutation leaves the original unchanged. -/
theorem C8_shallow_clone_cex :
    succOf (setSuccEntry (shallowCopyNode cexStore 0).2
        (shallowCopyNode cexStore 0).1 "go" 9) 0 = [("go", 9)]
    ∧ succOf cexStore 0 = [("go", 7)]
    ∧ paramsOf (setParamEntry (shallowCopyNode cexStore 0).2
        (shallowCopyNode cexStore 0).1 "a" 5) 0 = [("a", 5)]
    ∧ paramsOf cexStore 0 = [("a", 1)] := by
  decide

/-- C8 amended: the per-run shallow clone is a new node object whose own
properties hold the *same* map references as the original's (the maps are
not duplicated at any level); consequently an in-place mutation of an
entry of the clone's successors or params map is visible through the
original node, while only the wholesale replacement of the clone's params
reference (`setParams`, which is all the orchestrator performs) leaves
the original node object and every params map unchanged. -/
theorem C8_shallow_clone_aliasing {ν β : Type} (s : Store ν β) (nid : Nat)
    (h : nid < s.nextNode) :
    ((shallowCopyNode s nid).2.nodes (shallowCopyNode s nid).1 = s.nodes nid)
    ∧ (∀ k tgt,
        succOf (setSuccEntry (shallowCopyNode s nid).2
            (shallowCopyNode s nid).1 k tgt) nid
          = setEntry (succOf s nid) k tgt)
    ∧ (∀ k v,
        paramsOf (setParamEntry (shallowCopyNode s nid).2
            (shallowCopyNode s nid).1 k v) nid
          = setEntry (paramsOf s nid) k v)
    ∧ (∀ pref,
        (setParamsRef (shallowCopyNode s nid).2
            (shallowCopyNode s nid).1 pref).nodes nid = s.nodes nid
        ∧ (setParamsRef (shallowCopyNode s nid).2
            (shallowCopyNode s nid).1 pref).pmaps = s.pmaps) := by
  have hne : nid ≠ s.nextNode := by omega
  refine ⟨?_, ?_, ?_, ?_⟩
  · simp [shallowCopyNode, allocNode, updFn]
  · intro k tgt
    simp [shallowCopyNode, allocNode, setSuccEntry, succOf, updFn, hne]
  · intro k v
    simp [shallowCopyNode, allocNode, setParamEntry, paramsOf, updFn, hne]
  · intro pref
    exact ⟨by simp [shallowCopyNode, allocNode, setParamsRef, updFn, hne], rfl⟩

/-- C8 witness for the amended statement, at the concrete one-node store. -/
theorem C8_shallow_clone_aliasing_witness :
    (shallowCopyNode cexStore 0).2.nodes (shallowCopyNode cexStore 0).1
        = cexStore.nodes 0
    ∧ succOf (setSuccEntry (shallowCopyNode cexStore 0).2
        (shallowCopyNode cexStore 0).1 "go" 9) 0
        = setEntry (succOf cexStore 0) "go" 9 := by
  have h := C8_shallow_clone_aliasing cexStore 0 (by decide)
  exact ⟨h.1, h.2.1 "go" 9⟩

/-- C10: `a.next(b, action)` returns the successor `b` (not `a`) after
registering `b` under `action` in `a`'s successors map; `a.connect(b)`
and `a.withTransition(action).connect(b)` likewise return `b`;
consequently the chained call `a.connect(b).connect(c)` on three freshly
constructed nodes registers `c` as the `"default"` successor of `b`,
while `a` keeps `b` as its only successor. -/
theorem C10_next_returns_successor {ν β : Type} (s : Store ν β) (a b : Nat)
    (action : String) :
    ((nextOp s a b action).1 = b
     ∧ (connectOp s a b).1 = b
     ∧ (ctConnect s (withTransitionOp a action) b).1 = b)
    ∧ lookupEntry (succOf (nextOp s a b action).2.1 a) action = some b
    ∧ (chainAB.1 = chainB.1 ∧ chainABC.1 = chainC.1
       ∧ succOf chainABC.2.1 chainB.1 = [("default", chainC.1)]
       ∧ succOf chainABC.2.1 chainA.1 = [("default", chainB.1)]) := by
  refine ⟨⟨rfl, rfl, rfl⟩, ?_, by decide⟩
  have hs : succOf (setSuccEntry s a action b) a = setEntry (succOf s a) action b := by
    simp [setSuccEntry, succOf, updFn]
  show lookupEntry (succOf (setSuccEntry s a action b) a) action = some b
  rw [hs, lookupEntry_setEntry_self]

end SmolFlow
